import Mathlib

/-!
Verification of `sync_openmw_config.py` (repository `system-scripts`,
directory `openmw-config-sync`).

The script reads two OpenMW configuration files (a Windows-side "source"
and a Linux-side "target"), classifies lines by the literal key of their
stripped form (`data=` search-path directives, `content=` content
directives, everything else opaque), rewrites per-mod search paths from
the Windows ModOrganizer layout to the Linux layout, and rewrites the
target file after taking a backup.

Lines are modelled as lists of characters (`Line`), documents as lists of
lines as produced by Python's `readlines()` (each line normally keeps its
trailing newline).  The pure merge logic (lines 37-80 of the script) is
embedded as `syncLines`; the file-system behaviour (existence checks,
backup copy, UTF-8 decoding, final write, lines 17-35 and 82-84) is
embedded as a small state machine `syncRun` over an abstract file system
`FS` recording the traced sequence of on-disk states.
-/

namespace OpenMWSync

/-- A configuration line, as a list of characters. -/
abbrev Line := List Char

/-- Characters removed by Python's `str.strip()` at either end of a line
(ASCII and Latin-1 whitespace; wider Unicode space characters are not
modelled, no configuration line in play contains them). -/
def isPyWs (c : Char) : Bool :=
  c = ' ' || c = '\t' || c = '\n' || c = '\r' || c = '\x0b' || c = '\x0c' ||
  c = '\x1c' || c = '\x1d' || c = '\x1e' || c = '\x1f' || c = '\x85' || c = '\xa0'

/-- Remove trailing whitespace characters (the right half of `str.strip()`). -/
def dropTrail : Line → Line
  | [] => []
  | c :: t =>
    match dropTrail t with
    | [] => if isPyWs c then [] else [c]
    | d :: t' => c :: d :: t'

/-- Python's `line.strip()`: remove leading and trailing whitespace. -/
def pyStrip (l : Line) : Line := dropTrail (l.dropWhile isPyWs)

/-- Python's `s.startswith(p)` on character lists. -/
def startswith : Line → Line → Bool
  | [], _ => true
  | _ :: _, [] => false
  | a :: p, b :: l => a == b && startswith p l

/-- Python's `pat in s` substring test on character lists. -/
def containsSub (pat : Line) : Line → Bool
  | [] => pat.isEmpty
  | c :: t => startswith pat (c :: t) || containsSub pat t

/-- Key of a search-path directive (script lines 43, 54). -/
def dataKey : Line := "data=".toList

/-- Key of a content directive (script lines 45, 54). -/
def contentKey : Line := "content=".toList

/-- First base-game exclusion pattern (script line 63). -/
def excl1 : Line := "steamapps/common/Morrowind/Data Files".toList

/-- Second base-game exclusion pattern (script line 63). -/
def excl2 : Line := "games/steam/steamapps/common/Morrowind/Data Files".toList

/-- Per-mod path pattern (script lines 67, 69). -/
def modPat : Line := "ModOrganizer/Morrowind/mods/".toList

/-- Ephemeral/overwrite directory pattern (script line 74). -/
def overwritePat : Line := "ModOrganizer/Morrowind/overwrite".toList

/-- The base Linux data directive appended at script line 58
(including its trailing newline). -/
def baseLine : Line :=
  "data=\"/mnt/data02/SteamLibrary/steamapps/common/Morrowind/Data Files\"\n".toList

/-- The fixed prefix of every translated per-mod directive
(script line 72, up to the interpolated mod name). -/
def dstPre : Line := "data=\"/home/voshond/Documents/Morrowind/mods/".toList

/-- `re.search(r'ModOrganizer/Morrowind/mods/([^"]+)', line)` (script line 69):
the match starts at the first position where the literal pattern occurs
followed by at least one non-quote character; the group is the maximal
run of non-quote characters after the pattern. -/
def findMod : Line → Option Line
  | [] => none
  | c :: t =>
    if startswith modPat (c :: t) then
      let name := ((c :: t).drop modPat.length).takeWhile (fun d => d != '"')
      if name.isEmpty then findMod t else some name
    else findMod t

/-- Body of the loop over `windows_data_lines` (script lines 61-76): the
emitted directive for one stripped source `data=` line, or `none` when
the line is skipped. -/
def processDataLine (data_line : Line) : Option Line :=
  if containsSub excl1 data_line || containsSub excl2 data_line then
    none
  else if containsSub modPat data_line then
    match findMod data_line with
    | some mod_name => some (dstPre ++ mod_name ++ ['"', '\n'])
    | none => none
  else if containsSub overwritePat data_line then
    none
  else
    none

/-- The classification loop over the source document (script lines 38-46):
collect the stripped `data=` lines and the stripped `content=` lines,
in order. -/
def extractWindows : List Line → List Line × List Line
  | [] => ([], [])
  | l :: rest =>
    let line := pyStrip l
    let (ds, cs) := extractWindows rest
    if startswith dataKey line then (line :: ds, cs)
    else if startswith contentKey line then (ds, line :: cs)
    else (ds, cs)

/-- The carry-over loop over the target document (script lines 52-55):
keep every raw line whose stripped form is neither a `data=` nor a
`content=` directive. -/
def carryOver (linux_lines : List Line) : List Line :=
  linux_lines.filter (fun line =>
    !(startswith dataKey (pyStrip line)) && !(startswith contentKey (pyStrip line)))

/-- The pure merge (script lines 37-80): carry-over lines, then the base
directive, then the translated per-mod directives, then the source
content directives (each given a trailing newline, script line 80). -/
def syncLines (windows_lines linux_lines : List Line) : List Line :=
  let windows_data_lines := (extractWindows windows_lines).1
  let windows_content_lines := (extractWindows windows_lines).2
  carryOver linux_lines
    ++ [baseLine]
    ++ windows_data_lines.filterMap processDataLine
    ++ windows_content_lines.map (fun content_line => content_line ++ ['\n'])

example :
    syncLines ["data=\"C:/MO/ModOrganizer/Morrowind/mods/X\"\n".toList,
               "content=X.esp\n".toList]
              ["fallback=archive\n".toList, "data=\"/old\"\n".toList] =
      ["fallback=archive\n".toList, baseLine,
       "data=\"/home/voshond/Documents/Morrowind/mods/X\"\n".toList,
       "content=X.esp\n".toList] := by decide

/-! ## Abstract file system

The script touches three files: the Windows config (read only), the Linux
config (read and rewritten, script line 83) and the backup (written by
`shutil.copy2`, script line 28).  A file's raw content either decodes as
UTF-8 into lines (`Raw.ok`) or does not (`Raw.bad`); `shutil.copy2`
copies raw bytes regardless, while `open(..., encoding='utf-8')`
followed by `readlines()` raises on undecodable content. -/

/-- Raw on-disk content of one file: UTF-8 decodable lines, or not. -/
inductive Raw
  | ok (lines : List Line)
  | bad
deriving DecidableEq

/-- The three files the script touches; `none` means the file is absent. -/
structure FS where
  windows : Option Raw
  linux : Option Raw
  backup : Option Raw
deriving DecidableEq

/-- Outcome of one invocation of `sync_openmw_config`. -/
inductive RunResult
  | success
  | missingWindows
  | missingLinux
  | decodeError
deriving DecidableEq

/-- One run of `sync_openmw_config` (script lines 17-96) over the abstract
file system: the returned list is the trace of file-system states after
each write (the backup copy at line 28, the target rewrite at line 83),
paired with the outcome.  The existence checks (lines 18-24) precede the
backup; the backup precedes both UTF-8 reads (lines 31-35), which precede
the rewrite. -/
def syncRun (fs : FS) : List FS × RunResult :=
  match fs.windows with
  | none => ([], RunResult.missingWindows)
  | some wraw =>
    match fs.linux with
    | none => ([], RunResult.missingLinux)
    | some lraw =>
      let fs1 : FS := { fs with backup := some lraw }
      match wraw with
      | Raw.bad => ([fs1], RunResult.decodeError)
      | Raw.ok windows_lines =>
        match lraw with
        | Raw.bad => ([fs1], RunResult.decodeError)
        | Raw.ok linux_lines =>
          let fs2 : FS := { fs1 with linux := some (Raw.ok (syncLines windows_lines linux_lines)) }
          ([fs1, fs2], RunResult.success)

/-- The file-system state after a run (last traced state, or the initial
state when the run wrote nothing). -/
def finalFS (fs : FS) : FS := ((syncRun fs).1).getLastD fs

/-- The commit step (script lines 83-84) opens the target with mode `w`,
truncating it, and then writes the merged lines sequentially; it is
modelled from this in-place rewrite: if the write is interrupted after
`k` lines, the target holds exactly the first `k` merged lines. -/
def commitInterrupted (new_lines : List Line) (k : Nat) : Raw :=
  Raw.ok (new_lines.take k)

/-! ## Helper lemmas: `startswith` -/

theorem startswith_append (p r : Line) : startswith p (p ++ r) = true := by
  induction p with
  | nil => rfl
  | cons a p ih => simp [startswith, ih]

theorem startswith_extend {p a : Line} (r : Line) (h : startswith p a = true) :
    startswith p (a ++ r) = true := by
  induction p generalizing a with
  | nil => rfl
  | cons x p ih =>
    cases a with
    | nil => simp [startswith] at h
    | cons b t =>
      simp only [startswith, Bool.and_eq_true, beq_iff_eq] at h
      simp [startswith, h.1, ih h.2]

theorem startswith_cons_iff {a : Char} {p l : Line} :
    startswith (a :: p) l = true ↔ ∃ t, l = a :: t ∧ startswith p t = true := by
  cases l with
  | nil => simp [startswith]
  | cons b t =>
    simp only [startswith, Bool.and_eq_true, beq_iff_eq]
    constructor
    · rintro ⟨rfl, h⟩; exact ⟨t, rfl, h⟩
    · rintro ⟨t', ht, h⟩
      cases ht
      exact ⟨rfl, h⟩

theorem head_of_startswith_dataKey {l : Line} (h : startswith dataKey l = true) :
    ∃ t, l = 'd' :: t := by
  have h' := h
  rw [show dataKey = 'd' :: "ata=".toList from rfl, startswith_cons_iff] at h'
  obtain ⟨t, rfl, -⟩ := h'
  exact ⟨t, rfl⟩

theorem head_of_startswith_contentKey {l : Line} (h : startswith contentKey l = true) :
    ∃ t, l = 'c' :: t := by
  have h' := h
  rw [show contentKey = 'c' :: "ontent=".toList from rfl, startswith_cons_iff] at h'
  obtain ⟨t, rfl, -⟩ := h'
  exact ⟨t, rfl⟩

theorem data_not_content {l : Line} (h : startswith dataKey l = true) :
    startswith contentKey l = false := by
  obtain ⟨t, rfl⟩ := head_of_startswith_dataKey h
  simp [contentKey, startswith]

theorem content_not_data {l : Line} (h : startswith contentKey l = true) :
    startswith dataKey l = false := by
  obtain ⟨t, rfl⟩ := head_of_startswith_contentKey h
  simp [dataKey, startswith]

theorem startswith_congr {p a b : Line} (h : a = b) : startswith p a = startswith p b := by
  rw [h]

/-! ## Helper lemmas: `containsSub` -/

theorem containsSub_append (pat a r : Line) : containsSub pat (a ++ (pat ++ r)) = true := by
  induction a with
  | nil =>
    cases h : pat ++ r with
    | nil =>
      rcases List.append_eq_nil.mp h with ⟨rfl, rfl⟩
      rfl
    | cons c t =>
      simp only [List.nil_append, h, containsSub]
      rw [← h, startswith_append]
      rfl
  | cons x a ih =>
    simp only [List.cons_append, containsSub]
    rw [show a.append (pat ++ r) = a ++ (pat ++ r) from rfl, ih]
    simp

/-! ## Helper lemmas: `dropTrail` and `pyStrip` -/

theorem dropTrail_append_ws {c : Char} (l : Line) (h : isPyWs c = true) :
    dropTrail (l ++ [c]) = dropTrail l := by
  induction l with
  | nil => simp [dropTrail, h]
  | cons a t ih =>
    simp only [List.cons_append, dropTrail]
    rw [show (t ++ [c] : Line) = t.append [c] from rfl] at ih
    rw [ih]

theorem dropTrail_append_nonws {c : Char} (l : Line) (h : isPyWs c = false) :
    dropTrail (l ++ [c]) = l ++ [c] := by
  induction l with
  | nil => simp [dropTrail, h]
  | cons a t ih =>
    simp only [List.cons_append, dropTrail]
    rw [show (t ++ [c] : Line) = t.append [c] from rfl] at ih
    rw [ih]
    cases t with
    | nil => rfl
    | cons b t' => rfl

theorem dropTrail_cons_nil (c : Char) (t : Line) (h : dropTrail t = []) :
    dropTrail (c :: t) = if isPyWs c then [] else [c] := by
  simp only [dropTrail, h]

theorem dropTrail_cons_eq (c d : Char) (t t' : Line) (h : dropTrail t = d :: t') :
    dropTrail (c :: t) = c :: d :: t' := by
  simp only [dropTrail, h]

theorem dropTrail_shape (c : Char) (t : Line) :
    dropTrail (c :: t) = [] ∨ ∃ t', dropTrail (c :: t) = c :: t' := by
  cases h : dropTrail t with
  | nil =>
    rw [dropTrail_cons_nil c t h]
    by_cases hc : isPyWs c = true
    · left; simp [hc]
    · right; exact ⟨[], by simp [hc]⟩
  | cons d t' =>
    right; exact ⟨d :: t', dropTrail_cons_eq c d t t' h⟩

theorem dropTrail_dropTrail (l : Line) : dropTrail (dropTrail l) = dropTrail l := by
  induction l with
  | nil => rfl
  | cons c t ih =>
    cases h : dropTrail t with
    | nil =>
      rw [dropTrail_cons_nil c t h]
      by_cases hc : isPyWs c = true
      · simp [hc, dropTrail]
      · simp [hc, dropTrail]
    | cons d t' =>
      rw [h] at ih
      rw [dropTrail_cons_eq c d t t' h, dropTrail_cons_eq c d (d :: t') t' ih]

theorem dropWhile_head {p : Char → Bool} {l : Line} {a : Char} {t : Line}
    (h : l.dropWhile p = a :: t) : p a = false := by
  induction l with
  | nil => simp at h
  | cons b l' ih =>
    by_cases hb : p b = true
    · rw [List.dropWhile_cons_of_pos hb] at h
      exact ih h
    · rw [List.dropWhile_cons_of_neg hb] at h
      cases h
      exact Bool.eq_false_iff.mpr hb

theorem pyStrip_head_not_ws {l : Line} {c : Char} {t : Line}
    (h : pyStrip l = c :: t) : isPyWs c = false := by
  unfold pyStrip at h
  cases hu : l.dropWhile isPyWs with
  | nil => rw [hu] at h; simp [dropTrail] at h
  | cons a u =>
    rw [hu] at h
    rcases dropTrail_shape a u with h' | ⟨t', h'⟩
    · rw [h'] at h; exact absurd h (by simp)
    · rw [h'] at h
      cases h
      exact dropWhile_head hu

theorem dropTrail_pyStrip (l : Line) : dropTrail (pyStrip l) = pyStrip l := by
  unfold pyStrip
  exact dropTrail_dropTrail _

theorem pyStrip_append_nl (l : Line) : pyStrip (pyStrip l ++ ['\n']) = pyStrip l := by
  cases h : pyStrip l with
  | nil => decide
  | cons c t =>
    have hc : isPyWs c = false := pyStrip_head_not_ws h
    show pyStrip (c :: (t ++ ['\n'])) = c :: t
    unfold pyStrip
    rw [List.dropWhile_cons_of_neg (by simp [hc])]
    rw [show (c :: (t ++ ['\n']) : Line) = (c :: t) ++ ['\n'] from rfl]
    rw [dropTrail_append_ws _ (by decide)]
    rw [← h]
    exact dropTrail_pyStrip l

theorem pyStrip_sandwich {c b : Char} (m : Line)
    (hc : isPyWs c = false) (hb : isPyWs b = false) :
    pyStrip (c :: (m ++ [b])) = c :: (m ++ [b]) := by
  unfold pyStrip
  rw [List.dropWhile_cons_of_neg (by simp [hc])]
  rw [show (c :: (m ++ [b]) : Line) = (c :: m) ++ [b] from rfl]
  exact dropTrail_append_nonws _ hb

/-! ## Helper lemmas: `findMod` -/

theorem takeWhile_middle {m : Line} (r : Line)
    (hq : ∀ c ∈ m, (c != '"') = true) :
    (m ++ '"' :: r).takeWhile (fun d => d != '"') = m := by
  induction m with
  | nil => simp [List.takeWhile_cons]
  | cons c m' ih =>
    have hc : (c != '"') = true := hq c (by simp)
    rw [List.cons_append, List.takeWhile_cons]
    simp only [hc, if_true]
    rw [ih (fun c hc' => hq c (by simp [hc']))]

theorem mem_takeWhile {p : Char → Bool} {l : Line} {c : Char}
    (h : c ∈ l.takeWhile p) : p c = true := by
  induction l with
  | nil => simp at h
  | cons a t ih =>
    by_cases ha : p a = true
    · rw [List.takeWhile_cons_of_pos ha] at h
      rcases List.mem_cons.mp h with rfl | h'
      · exact ha
      · exact ih h'
    · rw [List.takeWhile_cons_of_neg ha] at h
      simp at h

theorem findMod_cons (c : Char) (t : Line) :
    findMod (c :: t) =
      if startswith modPat (c :: t) then
        (if (((c :: t).drop modPat.length).takeWhile (fun d => d != '"')).isEmpty then
          findMod t
         else some (((c :: t).drop modPat.length).takeWhile (fun d => d != '"')))
      else findMod t := rfl

theorem findMod_at (m r : Line) (hm : m ≠ [])
    (hq : ∀ c ∈ m, (c != '"') = true) :
    findMod (modPat ++ (m ++ '"' :: r)) = some m := by
  have hrepr : modPat ++ (m ++ '"' :: r) =
      'M' :: ("odOrganizer/Morrowind/mods/".toList ++ (m ++ '"' :: r)) := rfl
  have hsw : startswith modPat (modPat ++ (m ++ '"' :: r)) = true := startswith_append _ _
  rw [hrepr] at hsw ⊢
  rw [findMod_cons, if_pos hsw]
  rw [← hrepr, List.drop_left, takeWhile_middle r hq]
  cases m with
  | nil => exact absurd rfl hm
  | cons a m' => simp

theorem findMod_skip (c : Char) (t : Line)
    (h : startswith modPat (c :: t) = false) :
    findMod (c :: t) = findMod t := by
  rw [findMod_cons, if_neg (by simp [h])]

theorem findMod_prepend (a rest : Line)
    (hfirst : ∀ i, i < a.length → startswith modPat ((a ++ rest).drop i) = false) :
    findMod (a ++ rest) = findMod rest := by
  induction a with
  | nil => rfl
  | cons x a' ih =>
    have h0 : startswith modPat (x :: (a' ++ rest)) = false := by
      have := hfirst 0 (by simp)
      simpa using this
    rw [List.cons_append, findMod_skip x (a' ++ rest) h0]
    exact ih (fun i hi => by
      have := hfirst (i + 1) (by simpa using Nat.succ_lt_succ hi)
      simpa using this)

theorem findMod_some_props {l m : Line} (h : findMod l = some m) :
    m ≠ [] ∧ ∀ c ∈ m, (c != '"') = true := by
  induction l with
  | nil => simp [findMod] at h
  | cons c t ih =>
    rw [findMod_cons] at h
    by_cases hsw : startswith modPat (c :: t) = true
    · rw [if_pos hsw] at h
      by_cases he : (((c :: t).drop modPat.length).takeWhile (fun d => d != '"')).isEmpty = true
      · rw [if_pos he] at h
        exact ih h
      · rw [if_neg he] at h
        cases h
        constructor
        · intro hnil
          rw [hnil] at he
          simp at he
        · exact fun c hc => @mem_takeWhile (fun d => d != '"') _ c hc
    · rw [if_neg hsw] at h
      exact ih h

/-! ## Helper lemmas: `processDataLine` and `extractWindows` -/

theorem processDataLine_some {s out : Line} (h : processDataLine s = some out) :
    ∃ m, m ≠ [] ∧ (∀ c ∈ m, (c != '"') = true) ∧ out = dstPre ++ m ++ ['"', '\n'] := by
  unfold processDataLine at h
  by_cases h1 : (containsSub excl1 s || containsSub excl2 s) = true
  · rw [if_pos h1] at h; cases h
  · rw [if_neg h1] at h
    by_cases h2 : containsSub modPat s = true
    · rw [if_pos h2] at h
      cases hf : findMod s with
      | none => rw [hf] at h; cases h
      | some m =>
        rw [hf] at h
        cases h
        obtain ⟨hm, hq⟩ := findMod_some_props hf
        exact ⟨m, hm, hq, rfl⟩
    · rw [if_neg h2] at h
      by_cases h3 : containsSub overwritePat s = true
      · rw [if_pos h3] at h; cases h
      · rw [if_neg h3] at h; cases h

theorem extractWindows_fst (w : List Line) :
    (extractWindows w).1 = (w.map pyStrip).filter (fun s => startswith dataKey s) := by
  induction w with
  | nil => rfl
  | cons l rest ih =>
    simp only [extractWindows, List.map_cons, List.filter_cons]
    by_cases hd : startswith dataKey (pyStrip l) = true
    · simp [hd, ih]
    · simp only [Bool.eq_false_iff.mp (by simpa using hd)] at *
      by_cases hc : startswith contentKey (pyStrip l) = true
      · simp [hd, hc, ih]
      · simp [hd, hc, ih]

theorem extractWindows_snd (w : List Line) :
    (extractWindows w).2 = (w.map pyStrip).filter (fun s => startswith contentKey s) := by
  induction w with
  | nil => rfl
  | cons l rest ih =>
    simp only [extractWindows, List.map_cons, List.filter_cons]
    by_cases hd : startswith dataKey (pyStrip l) = true
    · have hc := data_not_content hd
      simp [hd, hc, ih]
    · by_cases hc : startswith contentKey (pyStrip l) = true
      · simp [hd, hc, ih]
      · simp [hd, hc, ih]

/-- A target line is opaque when its stripped form is neither a `data=`
nor a `content=` directive (spec "opaque line"). -/
def opaqueLine (l : Line) : Bool :=
  !(startswith dataKey (pyStrip l)) && !(startswith contentKey (pyStrip l))

theorem carryOver_eq (t : List Line) : carryOver t = t.filter opaqueLine := rfl

/-! ## Shape of the emitted segments -/

theorem pyStrip_quote_nl (c : Char) (x : Line) (hc : isPyWs c = false) :
    pyStrip (c :: (x ++ ['"', '\n'])) = c :: (x ++ ['"']) := by
  unfold pyStrip
  rw [List.dropWhile_cons_of_neg (by simp [hc])]
  have e : (c :: (x ++ ['"', '\n']) : Line) = (c :: (x ++ ['"'])) ++ ['\n'] := by simp
  rw [e, dropTrail_append_ws _ (by decide)]
  have e2 : (c :: (x ++ ['"']) : Line) = (c :: x) ++ ['"'] := by simp
  rw [e2, dropTrail_append_nonws _ (by decide)]

/-- A probe prefix separating translated per-mod directives from the base
directive: translated lines start with it, the base line does not. -/
def dstProbe : Line := "data=\"/h".toList

theorem pyStrip_translated (m : Line) :
    pyStrip (dstPre ++ m ++ ['"', '\n']) = dstPre ++ m ++ ['"'] := by
  have e1 : dstPre ++ m ++ ['"', '\n'] =
      'd' :: (("ata=\"/home/voshond/Documents/Morrowind/mods/".toList ++ m) ++ ['"', '\n']) := rfl
  have e2 : dstPre ++ m ++ ['"'] =
      'd' :: (("ata=\"/home/voshond/Documents/Morrowind/mods/".toList ++ m) ++ ['"']) := rfl
  rw [e1, e2, pyStrip_quote_nl _ _ (by decide)]

theorem translated_facts (m : Line) :
    startswith dataKey (pyStrip (dstPre ++ m ++ ['"', '\n'])) = true ∧
    startswith contentKey (pyStrip (dstPre ++ m ++ ['"', '\n'])) = false ∧
    startswith dstProbe (pyStrip (dstPre ++ m ++ ['"', '\n'])) = true := by
  rw [pyStrip_translated]
  have hd : startswith dataKey (dstPre ++ m ++ ['"']) = true := by
    rw [List.append_assoc]
    exact startswith_extend _ (by decide)
  have hp : startswith dstProbe (dstPre ++ m ++ ['"']) = true := by
    rw [List.append_assoc]
    exact startswith_extend _ (by decide)
  exact ⟨hd, data_not_content hd, hp⟩

theorem mem_translated {w : List Line} {out : Line}
    (h : out ∈ ((extractWindows w).1).filterMap processDataLine) :
    ∃ m, out = dstPre ++ m ++ ['"', '\n'] := by
  rcases List.mem_filterMap.mp h with ⟨s, _, hps⟩
  rcases processDataLine_some hps with ⟨m, -, -, rfl⟩
  exact ⟨m, rfl⟩

theorem mem_content {w : List Line} {out : Line}
    (h : out ∈ ((extractWindows w).2).map (fun content_line => content_line ++ ['\n'])) :
    ∃ s, startswith contentKey s = true ∧ pyStrip out = s ∧ out = s ++ ['\n'] := by
  rcases List.mem_map.mp h with ⟨s, hs, rfl⟩
  rw [extractWindows_snd] at hs
  rcases List.mem_filter.mp hs with ⟨hsmem, hsw⟩
  rcases List.mem_map.mp hsmem with ⟨l₀, -, rfl⟩
  exact ⟨pyStrip l₀, hsw, pyStrip_append_nl l₀, rfl⟩

theorem mem_carryOver {t : List Line} {l : Line} (h : l ∈ carryOver t) :
    startswith dataKey (pyStrip l) = false ∧ startswith contentKey (pyStrip l) = false := by
  rcases List.mem_filter.mp h with ⟨-, hp⟩
  simp only [Bool.and_eq_true, Bool.not_eq_true'] at hp
  exact hp

/-- The output of `syncLines`, decomposed into its four segments. -/
theorem syncLines_decomp (windows_lines linux_lines : List Line) :
    syncLines windows_lines linux_lines =
      linux_lines.filter opaqueLine
        ++ [baseLine]
        ++ ((windows_lines.map pyStrip).filter
              (fun s => startswith dataKey s)).filterMap processDataLine
        ++ ((windows_lines.map pyStrip).filter
              (fun s => startswith contentKey s)).map
             (fun content_line => content_line ++ ['\n']) := by
  simp only [syncLines, extractWindows_fst, extractWindows_snd, carryOver_eq]

/-! ## Claims C1, C3, C4 -/

/-- C1: for every pair of input documents, the merged output is exactly the
concatenation of four contiguous segments, in order: the target's opaque
lines (original order), the single base search-path directive, the
translated per-mod search-path directives in source order, and the source
content directives in source order. -/
theorem claim_output_assembly (windows_lines linux_lines : List Line) :
    syncLines windows_lines linux_lines =
      linux_lines.filter opaqueLine
        ++ [baseLine]
        ++ ((windows_lines.map pyStrip).filter
              (fun s => startswith dataKey s)).filterMap processDataLine
        ++ ((windows_lines.map pyStrip).filter
              (fun s => startswith contentKey s)).map
             (fun content_line => content_line ++ ['\n']) :=
  syncLines_decomp windows_lines linux_lines

/-- C3: every opaque line of the target document survives unchanged and in
the same relative order: filtering the output by opaqueness recovers
exactly the target's opaque lines. -/
theorem claim_carry_over_completeness (windows_lines linux_lines : List Line) :
    (syncLines windows_lines linux_lines).filter opaqueLine =
      linux_lines.filter opaqueLine := by
  rw [syncLines_decomp]
  rw [List.filter_append, List.filter_append, List.filter_append]
  have h1 : (linux_lines.filter opaqueLine).filter opaqueLine =
      linux_lines.filter opaqueLine := by
    rw [List.filter_filter]
    exact List.filter_congr (fun x _ => Bool.and_self _)
  have h2 : List.filter opaqueLine [baseLine] = [] := by decide
  have h3 : (((windows_lines.map pyStrip).filter
      (fun s => startswith dataKey s)).filterMap processDataLine).filter opaqueLine = [] := by
    rw [List.filter_eq_nil_iff]
    intro out hout
    rw [← extractWindows_fst] at hout
    obtain ⟨m, rfl⟩ := mem_translated hout
    obtain ⟨hd, -, -⟩ := translated_facts m
    rw [List.append_assoc] at hd
    simp [opaqueLine, hd]
  have h4 : (((windows_lines.map pyStrip).filter
      (fun s => startswith contentKey s)).map
        (fun content_line => content_line ++ ['\n'])).filter opaqueLine = [] := by
    rw [List.filter_eq_nil_iff]
    intro out hout
    rw [← extractWindows_snd] at hout
    obtain ⟨s, hsw, hstrip, rfl⟩ := mem_content hout
    simp [opaqueLine, hstrip, hsw]
  rw [h1, h2, h3, h4]
  simp

/-- A line is a content directive when its stripped form starts with
`content=` (the classification the script applies). -/
def contentDirective (l : Line) : Bool := startswith contentKey (pyStrip l)

/-- C4: the content directives of the output are exactly the source
document's content directives (stripped, newline-terminated), in source
order; none of the target's content directives survive. -/
theorem claim_content_completeness (windows_lines linux_lines : List Line) :
    (syncLines windows_lines linux_lines).filter contentDirective =
      ((windows_lines.map pyStrip).filter
          (fun s => startswith contentKey s)).map
        (fun content_line => content_line ++ ['\n']) := by
  rw [syncLines_decomp]
  rw [List.filter_append, List.filter_append, List.filter_append]
  have h1 : (linux_lines.filter opaqueLine).filter contentDirective = [] := by
    rw [List.filter_eq_nil_iff]
    intro l hl
    rw [← carryOver_eq] at hl
    obtain ⟨-, hc⟩ := mem_carryOver hl
    simp [contentDirective, hc]
  have h2 : List.filter contentDirective [baseLine] = [] := by decide
  have h3 : (((windows_lines.map pyStrip).filter
      (fun s => startswith dataKey s)).filterMap processDataLine).filter contentDirective
        = [] := by
    rw [List.filter_eq_nil_iff]
    intro out hout
    rw [← extractWindows_fst] at hout
    obtain ⟨m, rfl⟩ := mem_translated hout
    obtain ⟨-, hc, -⟩ := translated_facts m
    rw [List.append_assoc] at hc
    simp [contentDirective, hc]
  have h4 : (((windows_lines.map pyStrip).filter
      (fun s => startswith contentKey s)).map
        (fun content_line => content_line ++ ['\n'])).filter contentDirective =
      ((windows_lines.map pyStrip).filter
          (fun s => startswith contentKey s)).map
        (fun content_line => content_line ++ ['\n']) := by
    rw [List.filter_eq_self]
    intro out hout
    rw [← extractWindows_snd] at hout
    obtain ⟨s, hsw, hstrip, rfl⟩ := mem_content hout
    simp [contentDirective, hstrip, hsw]
  rw [h1, h2, h3, h4]
  simp

/-! ## Claim C2 -/

/-- Number of base search-path directives in a document (lines whose
stripped form equals the stripped base directive). -/
def countBase (ls : List Line) : Nat :=
  ls.countP (fun l => decide (pyStrip l = pyStrip baseLine))

theorem countBase_sync (windows_lines linux_lines : List Line) :
    countBase (syncLines windows_lines linux_lines) = 1 := by
  rw [countBase, syncLines_decomp]
  rw [List.countP_append, List.countP_append, List.countP_append]
  have h1 : (linux_lines.filter opaqueLine).countP
      (fun l => decide (pyStrip l = pyStrip baseLine)) = 0 := by
    rw [List.countP_eq_zero]
    intro l hl
    rw [← carryOver_eq] at hl
    obtain ⟨hd, -⟩ := mem_carryOver hl
    simp only [decide_eq_true_eq]
    intro he
    rw [startswith_congr he] at hd
    rw [show startswith dataKey (pyStrip baseLine) = true by decide] at hd
    cases hd
  have h2 : List.countP (fun l => decide (pyStrip l = pyStrip baseLine)) [baseLine] = 1 := by
    decide
  have h3 : (((windows_lines.map pyStrip).filter
      (fun s => startswith dataKey s)).filterMap processDataLine).countP
        (fun l => decide (pyStrip l = pyStrip baseLine)) = 0 := by
    rw [List.countP_eq_zero]
    intro out hout
    rw [← extractWindows_fst] at hout
    obtain ⟨m, rfl⟩ := mem_translated hout
    obtain ⟨-, -, hp⟩ := translated_facts m
    simp only [decide_eq_true_eq]
    intro he
    rw [startswith_congr he] at hp
    rw [show startswith dstProbe (pyStrip baseLine) = false by decide] at hp
    cases hp
  have h4 : (((windows_lines.map pyStrip).filter
      (fun s => startswith contentKey s)).map
        (fun content_line => content_line ++ ['\n'])).countP
        (fun l => decide (pyStrip l = pyStrip baseLine)) = 0 := by
    rw [List.countP_eq_zero]
    intro out hout
    rw [← extractWindows_snd] at hout
    obtain ⟨s, hsw, hstrip, rfl⟩ := mem_content hout
    simp only [decide_eq_true_eq]
    intro he
    rw [hstrip] at he
    rw [he] at hsw
    rw [show startswith contentKey (pyStrip baseLine) = false by decide] at hsw
    cases hsw
  rw [h1, h2, h3, h4]

/-- C2: the output always contains exactly one base search-path directive,
whatever the target contained; in particular a second run on the
just-produced output (same source) still yields exactly one. -/
theorem claim_base_root_unique (windows_lines linux_lines : List Line) :
    countBase (syncLines windows_lines linux_lines) = 1 ∧
    countBase (syncLines windows_lines (syncLines windows_lines linux_lines)) = 1 :=
  ⟨countBase_sync windows_lines linux_lines,
   countBase_sync windows_lines (syncLines windows_lines linux_lines)⟩

/-! ## Claim C5 -/

/-- The `data="` opening of a quoted search-path directive. -/
def dq : Line := "data=\"".toList

theorem filter_data_nil {ws : List Line}
    (hw : ∀ l ∈ ws, startswith dataKey (pyStrip l) = false) :
    (ws.map pyStrip).filter (fun s => startswith dataKey s) = [] := by
  rw [List.filter_eq_nil_iff]
  intro s hs
  rcases List.mem_map.mp hs with ⟨l, hl, rfl⟩
  simp [hw l hl]

/-- C5: a source search-path directive whose quoted value has the form
`<root>ModOrganizer/Morrowind/mods/<m>` (forward-slash layout, no quote
inside the mod name, no base-game exclusion substring, the shown
occurrence of the per-mod pattern being the first) is translated to
exactly one output directive `data="/home/voshond/Documents/Morrowind/mods/<m>"`,
whatever the target document and the remaining (non-`data=`) source lines. -/
theorem claim_translation_correct
    (root m : Line) (w₁ w₂ t : List Line)
    (hm : m ≠ [])
    (hq : ∀ c ∈ m, (c != '"') = true)
    (hx1 : containsSub excl1 (dq ++ root ++ (modPat ++ (m ++ ['"']))) = false)
    (hx2 : containsSub excl2 (dq ++ root ++ (modPat ++ (m ++ ['"']))) = false)
    (hfirst : ∀ i, i < (dq ++ root).length →
        startswith modPat ((dq ++ root ++ (modPat ++ (m ++ ['"']))).drop i) = false)
    (hw₁ : ∀ l ∈ w₁, startswith dataKey (pyStrip l) = false)
    (hw₂ : ∀ l ∈ w₂, startswith dataKey (pyStrip l) = false) :
    List.count (dstPre ++ m ++ ['"', '\n'])
      (syncLines (w₁ ++ (dq ++ root ++ (modPat ++ (m ++ ['"']))) :: w₂) t) = 1 := by
  set L : Line := dq ++ root ++ (modPat ++ (m ++ ['"'])) with hL
  set expected : Line := dstPre ++ m ++ ['"', '\n'] with hexp
  have hstrip : pyStrip L = L := by
    rw [show L = 'd' :: ((("ata=\"".toList ++ root) ++ (modPat ++ m)) ++ ['"']) from by
      simp [hL, dq, List.append_assoc]]
    exact pyStrip_sandwich _ (by decide) (by decide)
  have hsw : startswith dataKey L = true := by
    rw [show L = dq ++ (root ++ (modPat ++ (m ++ ['"']))) from by simp [hL, List.append_assoc]]
    exact startswith_extend _ (by decide)
  have hproc : processDataLine L = some expected := by
    unfold processDataLine
    rw [hx1, hx2]
    have hmp : containsSub modPat L = true := containsSub_append modPat (dq ++ root) (m ++ ['"'])
    rw [if_neg (by simp), if_pos hmp]
    have hfm : findMod L = some m := by
      rw [hL, findMod_prepend (dq ++ root) (modPat ++ (m ++ ['"'])) hfirst]
      exact findMod_at m [] hm hq
    rw [hfm]
  have hfst : (extractWindows (w₁ ++ L :: w₂)).1 = [L] := by
    rw [extractWindows_fst, List.map_append, List.map_cons, List.filter_append,
      List.filter_cons, hstrip]
    rw [filter_data_nil hw₁, filter_data_nil hw₂]
    simp [hsw]
  have hdecomp : syncLines (w₁ ++ L :: w₂) t =
      carryOver t ++ [baseLine]
        ++ [expected]
        ++ ((extractWindows (w₁ ++ L :: w₂)).2).map
             (fun content_line => content_line ++ ['\n']) := by
    simp only [syncLines, hfst, List.filterMap_cons, hproc, List.filterMap_nil]
  rw [hdecomp]
  rw [List.count_append, List.count_append, List.count_append]
  have hprobe : startswith dstProbe (pyStrip expected) = true := (translated_facts m).2.2
  have hdata : startswith dataKey (pyStrip expected) = true := (translated_facts m).1
  have hcont : startswith contentKey (pyStrip expected) = false := (translated_facts m).2.1
  have h1 : List.count expected (carryOver t) = 0 := by
    rw [List.count_eq_zero]
    intro hmem
    obtain ⟨hd, -⟩ := mem_carryOver hmem
    rw [hdata] at hd
    cases hd
  have h2 : List.count expected [baseLine] = 0 := by
    rw [List.count_eq_zero]
    intro hmem
    have he : expected = baseLine := by simpa using hmem
    rw [startswith_congr (congrArg pyStrip he)] at hprobe
    rw [show startswith dstProbe (pyStrip baseLine) = false by decide] at hprobe
    cases hprobe
  have h3 : List.count expected [expected] = 1 := by simp
  have h4 : List.count expected
      (((extractWindows (w₁ ++ L :: w₂)).2).map
        (fun content_line => content_line ++ ['\n'])) = 0 := by
    rw [List.count_eq_zero]
    intro hmem
    obtain ⟨s, hsw', hstrip', -⟩ := mem_content hmem
    rw [hstrip'] at hcont
    rw [hsw'] at hcont
    cases hcont
  rw [h1, h2, h3, h4]

/-- Witness for C5 at a concrete source directive
`data="C:/Games/ModOrganizer/Morrowind/mods/SomeMod"`. -/
theorem claim_translation_correct_witness :
    List.count (dstPre ++ "SomeMod".toList ++ ['"', '\n'])
      (syncLines [dq ++ "C:/Games/".toList ++ (modPat ++ ("SomeMod".toList ++ ['"']))] []) = 1 :=
  claim_translation_correct "C:/Games/".toList "SomeMod".toList [] [] []
    (by decide) (by decide) (by decide) (by decide) (by decide)
    (by simp) (by simp)

/-! ## Claim C6 -/

/-- Example-scenario source document with the Windows path written with
backslashes, as the claim states it. -/
def srcWinBS : List Line :=
  ["data=\"C:\\Games\\ModOrganizer\\Morrowind\\mods\\Graphics Overhaul\"\n".toList,
   "content=GraphicsOverhaul.esp\n".toList]

/-- Example-scenario source document with the same path written with
forward slashes (the layout the script's patterns actually match). -/
def srcWinFS : List Line :=
  ["data=\"C:/Games/ModOrganizer/Morrowind/mods/Graphics Overhaul\"\n".toList,
   "content=GraphicsOverhaul.esp\n".toList]

/-- Example-scenario target document. -/
def tgtLinux : List Line :=
  ["data=\"/old/path\"\n".toList,
   "fallback-archive=Tribunal.bsa\n".toList]

/-- The opaque target line of the example scenario. -/
def fbLine : Line := "fallback-archive=Tribunal.bsa\n".toList

/-- The translated per-mod directive the example scenario expects. -/
def translatedGO : Line :=
  "data=\"/home/voshond/Documents/Morrowind/mods/Graphics Overhaul\"\n".toList

/-- The content directive of the example scenario. -/
def contentGO : Line := "content=GraphicsOverhaul.esp\n".toList

/-- C6 counterexample: with the backslash-separated source path of the
claim, the `data=` line matches none of the script's forward-slash
patterns and is dropped, so the output has only three lines and is not
the claimed four-line document. -/
theorem claim_example_scenario_cex :
    syncLines srcWinBS tgtLinux = [fbLine, baseLine, contentGO] ∧
    syncLines srcWinBS tgtLinux ≠ [fbLine, baseLine, translatedGO, contentGO] := by
  decide

/-- C6 amended: with the example path written with forward slashes, the
output is exactly the claimed four lines, in order: the opaque fallback
line, the base directive, the translated mod directive, the content
directive.  (With backslashes the mod directive is silently dropped.) -/
theorem claim_example_scenario_amended :
    syncLines srcWinFS tgtLinux = [fbLine, baseLine, translatedGO, contentGO] := by
  decide

/-! ## Claim C7 -/

/-- A source directive whose value contains the per-mod pattern and,
inside the mod name, the overwrite pattern. -/
def overlapLine : Line :=
  "data=\"D:/ModOrganizer/Morrowind/mods/ModOrganizer/Morrowind/overwrite\"".toList

/-- C7 counterexample: a source search-path directive matching the
ephemeral/overwrite pattern is nevertheless translated when its value
also contains the per-mod pattern (the script tests the per-mod pattern
first), so it does produce an output directive. -/
theorem claim_exclusion_cex :
    containsSub overwritePat (pyStrip overlapLine) = true ∧
    syncLines [overlapLine] [] =
      [baseLine,
       "data=\"/home/voshond/Documents/Morrowind/mods/ModOrganizer/Morrowind/overwrite\"\n".toList] := by
  decide

/-- C7 amended: a source search-path directive whose value contains a
base-game exclusion pattern (regardless of anything else), or does not
contain the per-mod pattern at all (which covers the overwrite pattern
and unrecognized layouts), contributes nothing to the output: the run
behaves as if the line were absent from the source document. -/
theorem claim_exclusion_correct (w₁ w₂ t : List Line) (line : Line)
    (hdata : startswith dataKey (pyStrip line) = true)
    (hdrop : (containsSub excl1 (pyStrip line) || containsSub excl2 (pyStrip line)) = true ∨
        containsSub modPat (pyStrip line) = false) :
    syncLines (w₁ ++ line :: w₂) t = syncLines (w₁ ++ w₂) t := by
  have hnone : processDataLine (pyStrip line) = none := by
    unfold processDataLine
    by_cases hx : (containsSub excl1 (pyStrip line) || containsSub excl2 (pyStrip line)) = true
    · rw [if_pos hx]
    · rcases hdrop with h | h
      · exact absurd h hx
      · rw [if_neg hx, if_neg (by simp [h])]
        by_cases ho : containsSub overwritePat (pyStrip line) = true
        · rw [if_pos ho]
        · rw [if_neg ho]
  have hcontent := data_not_content hdata
  simp only [syncLines, extractWindows_fst, extractWindows_snd, List.map_append,
    List.map_cons, List.filter_append, List.filter_cons, hdata, hcontent,
    List.filterMap_append, List.filterMap_cons, hnone, if_true, Bool.false_eq_true,
    if_false]

/-- Witness for the amended C7 at a concrete unrecognized directive. -/
theorem claim_exclusion_correct_witness :
    syncLines ["content=A.esp\n".toList, "data=\"/unknown/place\"\n".toList]
        ["fallback=1\n".toList] =
      syncLines ["content=A.esp\n".toList] ["fallback=1\n".toList] :=
  claim_exclusion_correct ["content=A.esp\n".toList] [] ["fallback=1\n".toList]
    "data=\"/unknown/place\"\n".toList (by decide) (Or.inr (by decide))

/-! ## Claims C8, C9, C10 -/

/-- Placeholder state used as the default when indexing a run trace. -/
def emptyFS : FS := ⟨none, none, none⟩

/-- C8: on every successful run the trace has exactly two writes; the
first (the backup copy) sets the backup to the target's pre-run bytes
while leaving the target untouched, and the second (the rewrite) leaves
the backup unchanged.  So the backup is written before the target is
modified, equals the pre-run target byte-for-byte, and is never modified
afterwards. -/
theorem claim_backup_fidelity (fs : FS) (h : (syncRun fs).2 = RunResult.success) :
    (syncRun fs).1.length = 2 ∧
    ((syncRun fs).1.getD 0 emptyFS).backup = fs.linux ∧
    ((syncRun fs).1.getD 0 emptyFS).linux = fs.linux ∧
    ((syncRun fs).1.getD 1 emptyFS).backup = ((syncRun fs).1.getD 0 emptyFS).backup := by
  cases hw : fs.windows with
  | none => simp [syncRun, hw] at h
  | some wraw =>
    cases hl : fs.linux with
    | none => simp [syncRun, hw, hl] at h
    | some lraw =>
      cases wraw with
      | bad => simp [syncRun, hw, hl] at h
      | ok windows_lines =>
        cases lraw with
        | bad => simp [syncRun, hw, hl] at h
        | ok linux_lines => simp [syncRun, hw, hl]

/-- Source and target present and decodable: the successful-run scenario. -/
def fsGood : FS :=
  ⟨some (Raw.ok ["content=A.esp\n".toList]),
   some (Raw.ok ["fallback=1\n".toList]),
   none⟩

/-- Witness for C8 at a concrete file system. -/
theorem claim_backup_fidelity_witness :
    (syncRun fsGood).1.length = 2 ∧
    ((syncRun fsGood).1.getD 0 emptyFS).backup = fsGood.linux ∧
    ((syncRun fsGood).1.getD 0 emptyFS).linux = fsGood.linux ∧
    ((syncRun fsGood).1.getD 1 emptyFS).backup = ((syncRun fsGood).1.getD 0 emptyFS).backup :=
  claim_backup_fidelity fsGood rfl

/-- Windows config present but not decodable as UTF-8; Linux config fine. -/
def fsBadWin : FS := ⟨some Raw.bad, some (Raw.ok ["keep\n".toList]), none⟩

/-- Windows config absent. -/
def fsNoWin : FS := ⟨none, some (Raw.ok ["keep\n".toList]), none⟩

/-- Linux config absent. -/
def fsNoLinux : FS := ⟨some (Raw.ok ["content=A.esp\n".toList]), none, none⟩

/-- C9 counterexample: when the source document is undecodable the run
fails, yet the backup HAS been written (the copy at script line 28
precedes the reads at lines 31-35), contradicting "performs no writes". -/
theorem claim_no_writes_cex :
    (syncRun fsBadWin).2 = RunResult.decodeError ∧
    (finalFS fsBadWin).backup ≠ fsBadWin.backup := by
  decide

/-- C9 amended: if either document is missing the run fails naming the
absent file and performs no writes at all; if both exist but either is
undecodable as UTF-8 the run fails and the target document is untouched,
but the backup has already been (re)written with the target's pre-run
bytes. -/
theorem claim_failure_side_effects (fs : FS) :
    (fs.windows = none → syncRun fs = ([], RunResult.missingWindows)) ∧
    (fs.windows ≠ none → fs.linux = none → syncRun fs = ([], RunResult.missingLinux)) ∧
    ((syncRun fs).2 = RunResult.decodeError →
      (finalFS fs).linux = fs.linux ∧ (finalFS fs).backup = fs.linux) := by
  refine ⟨?_, ?_, ?_⟩
  · intro h
    simp [syncRun, h]
  · intro hw hl
    cases hww : fs.windows with
    | none => exact absurd hww hw
    | some wraw => simp [syncRun, hww, hl]
  · intro h
    cases hw : fs.windows with
    | none => simp [syncRun, hw] at h
    | some wraw =>
      cases hl : fs.linux with
      | none => simp [syncRun, hw, hl] at h
      | some lraw =>
        cases wraw with
        | bad => simp [finalFS, syncRun, hw, hl]
        | ok windows_lines =>
          cases lraw with
          | bad => simp [finalFS, syncRun, hw, hl]
          | ok linux_lines => simp [syncRun, hw, hl] at h

/-- Witness for the amended C9, exercising the three failure modes. -/
theorem claim_failure_side_effects_witness :
    syncRun fsNoWin = ([], RunResult.missingWindows) ∧
    syncRun fsNoLinux = ([], RunResult.missingLinux) ∧
    ((finalFS fsBadWin).linux = fsBadWin.linux ∧ (finalFS fsBadWin).backup = fsBadWin.linux) :=
  ⟨(claim_failure_side_effects fsNoWin).1 rfl,
   (claim_failure_side_effects fsNoLinux).2.1 (by decide) rfl,
   (claim_failure_side_effects fsBadWin).2.2 rfl⟩

/-- C10: the commit (script lines 83-84) truncates the target and writes
the merged lines in place, with no temp-file-and-rename; interrupted
after one of the four merged lines of the example scenario, the on-disk
target is neither the old content nor the new content — a truncated
mixture, contradicting the claimed atomicity. -/
theorem claim_commit_not_atomic :
    commitInterrupted (syncLines srcWinFS tgtLinux) 1 ≠ Raw.ok tgtLinux ∧
    commitInterrupted (syncLines srcWinFS tgtLinux) 1 ≠
      Raw.ok (syncLines srcWinFS tgtLinux) := by
  decide

end OpenMWSync
